import Mathlib

/-!
Verification of the `filelike` byte-stream library.

The Python source is shallowly embedded: byte strings become `List Nat`,
`StringIO` becomes `MemFile`, and each wrapper's primitive methods become
pure functions on explicit state.  Python integer arithmetic on indices is
over `Int`/`Nat` (Python 2 `/` on nonnegative ints is `Nat.div`).
-/

namespace Filelike

/-- Bytes are modelled as natural numbers (Python 2 one-character strings). -/
abbrev Byte := Nat

/-- The padding sentinel byte, Python literal `"Z"` (ASCII 90). -/
def zByte : Byte := 90

/-- The padding filler byte, Python literal `"X"` (ASCII 88). -/
def xByte : Byte := 88

/-- Python slice `s[:n]` for an integer index (a negative index counts from
the end of the string, clamped at zero). -/
def pytake (n : Int) (l : List Byte) : List Byte :=
  if 0 ≤ n then l.take n.toNat else l.take ((l.length : Int) + n).toNat

/-- Python slice `s[n:]` for an integer index (a negative index counts from
the end of the string, clamped at zero). -/
def pydrop (n : Int) (l : List Byte) : List Byte :=
  if 0 ≤ n then l.drop n.toNat else l.drop ((l.length : Int) + n).toNat

/-- `_round_up` from the blocksize wrappers: round `n` up to a multiple of
the block size `b`. -/
def roundUp (b n : Nat) : Nat :=
  if n % b = 0 then n else (n / b + 1) * b

/-- `_round_down` from the blocksize wrappers: round `n` down to a multiple
of the block size `b`. -/
def roundDown (b n : Nat) : Nat :=
  if n % b = 0 then n else n / b * b

/-- Helper for `rfind`: scan the list keeping the index of the last
occurrence seen so far. -/
def rfindAux (c : Byte) : List Byte → Nat → Int → Int
  | [], _, acc => acc
  | x :: xs, i, acc => rfindAux c xs (i + 1) (if x = c then (i : Int) else acc)

/-- Python `s.rfind(c)`: the index of the last occurrence of `c` in `s`,
or `-1` when `c` does not occur. -/
def rfind (l : List Byte) (c : Byte) : Int := rfindAux c l 0 (-1)

/-- An in-memory seekable file, the model of Python 2 `StringIO`:
the full contents together with the current position. -/
structure MemFile where
  data : List Byte
  pos : Nat
deriving DecidableEq, Repr

/-- `StringIO.read(k)` for a nonnegative size: return up to `k` bytes from
the current position and advance past them. -/
def MemFile.readN (f : MemFile) (k : Nat) : List Byte × MemFile :=
  let chunk := (f.data.drop f.pos).take k
  (chunk, { f with pos := f.pos + chunk.length })

/-- `StringIO.read()` (or `read(-1)`): return everything from the current
position to the end of the file. -/
def MemFile.readAll (f : MemFile) : List Byte × MemFile :=
  let chunk := f.data.drop f.pos
  (chunk, { f with pos := f.pos + chunk.length })

/-- `StringIO.write(s)`: overwrite at the current position, extending the
file and zero-filling any gap between the old end and the position. -/
def MemFile.write (f : MemFile) (s : List Byte) : MemFile :=
  { data := f.data.take f.pos ++ List.replicate (f.pos - f.data.length) 0
      ++ s ++ f.data.drop (f.pos + s.length),
    pos := f.pos + s.length }

/-- `StringIO.seek(n, 0)` to an absolute nonnegative position (positions
past the end of the data are allowed, as in `StringIO`). -/
def MemFile.seekTo (f : MemFile) (n : Nat) : MemFile :=
  { f with pos := n }

/-- `StringIO.seek(off, 1)`: relative seek; `StringIO` clamps the resulting
position at zero. -/
def MemFile.seekRel (f : MemFile) (off : Int) : MemFile :=
  { f with pos := ((f.pos : Int) + off).toNat }

/-- `StringIO.seek(off, 2)`: seek relative to the end of the data,
clamped at zero. -/
def MemFile.seekEnd (f : MemFile) (off : Int) : MemFile :=
  { f with pos := ((f.data.length : Int) + off).toNat }

/-! ## The `Slice` wrapper (`filelike/wrappers/slice.py`)

A `Slice` exposes the region `[start, stop)` of an inner file.  Its state is
the wrapped file plus the constructor parameters (`stop` may change when the
slice is resizable). -/

structure SliceState where
  inner : MemFile
  start : Nat
  stop : Option Nat
  resizable : Bool
deriving DecidableEq, Repr

/-- `Slice._write`: write `data` at the current inner position; when a
non-resizable slice would be overrun, write only the prefix that fits below
`stop` and raise `IOError("File not resizable")`.  The boolean result
records whether the error was raised. -/
def SliceState.write (s : SliceState) (data : List Byte) : SliceState × Bool :=
  match s.stop with
  | none => ({ s with inner := s.inner.write data }, false)
  | some t =>
    let pos := s.inner.pos
    let e := pos + data.length
    if t < e then
      if s.resizable then
        ({ s with inner := s.inner.write data, stop := some e }, false)
      else
        ({ s with inner := s.inner.write (pytake ((t : Int) - pos) data) }, true)
    else
      ({ s with inner := s.inner.write data }, false)

/-- `Slice._seek` for `whence = 0`: translate by `start`, clamp below at
`start`, clamp above at `stop` (or grow `stop` when resizable), and seek the
inner file to the resulting absolute position. -/
def SliceState.seek0 (s : SliceState) (offset : Int) : SliceState :=
  let o1 := offset + s.start
  let o2 := if o1 < (s.start : Int) then (s.start : Int) else o1
  match s.stop with
  | some t =>
    if (t : Int) < o2 then
      if s.resizable then
        { s with stop := some o2.toNat, inner := s.inner.seekTo o2.toNat }
      else
        { s with inner := s.inner.seekTo t }
    else
      { s with inner := s.inner.seekTo o2.toNat }
  | none => { s with inner := s.inner.seekTo o2.toNat }

/-- `Slice._seek` for `whence = 1`: adjust the relative offset so that the
resulting inner position stays at or above `start` and (when a `stop` bound
exists) at or below `stop`, then seek the inner file relatively. -/
def SliceState.seek1 (s : SliceState) (offset : Int) : SliceState :=
  let pos := s.inner.pos
  let off1 := if (pos : Int) + offset < (s.start : Int)
    then (s.start : Int) - pos else offset
  let off2 := match s.stop with
    | some t => if (t : Int) < (pos : Int) + off1 then (t : Int) - pos else off1
    | none => off1
  { s with inner := s.inner.seekRel off2 }

/-- `Slice._seek` for `whence = 2`: with no `stop` bound, delegate an
end-relative seek to the inner file (clamping back up to `start`); with a
`stop` bound, rewrite as an absolute seek. -/
def SliceState.seek2 (s : SliceState) (offset : Int) : SliceState :=
  match s.stop with
  | none =>
    let f1 := s.inner.seekEnd offset
    if offset < 0 ∧ f1.pos < s.start then
      { s with inner := f1.seekTo s.start }
    else
      { s with inner := f1 }
  | some t =>
    let o := if 0 < offset ∧ ¬s.resizable
      then (t : Int) - s.start
      else (t : Int) + offset - s.start
    s.seek0 o

/-- `Slice._seek`: dispatch on `whence`; an unknown `whence` raises
`ValueError`. -/
def SliceState.seek (s : SliceState) (offset : Int) (whence : Nat) :
    Except String SliceState :=
  if whence = 0 then .ok (s.seek0 offset)
  else if whence = 1 then .ok (s.seek1 offset)
  else if whence = 2 then .ok (s.seek2 offset)
  else .error "Invalid value for whence"

/-- `Slice._tell`: the inner position translated back into slice
coordinates. -/
def SliceState.tell (s : SliceState) : Int :=
  (s.inner.pos : Int) - s.start

/-! ## The padding wrappers (`filelike/wrappers/padtoblocksize.py`)

`PadToBlockSize` appends, on reading, a sentinel `"Z"` plus `"X"` filler up
to the next block boundary; `UnPadToBlockSize` strips that padding. -/

/-- `_padding(data)` from both padding wrappers: one `"Z"` followed by
`"X" * (round_up(len(data) + 1) - len(data) - 1)` filler bytes. -/
def paddingOf (b dataLen : Nat) : List Byte :=
  zByte :: List.replicate (roundUp b (dataLen + 1) - dataLen - 1) xByte

/-- State of a `PadToBlockSize` wrapper: the wrapped file, the block size
and the `_pad_loc` / `_pad_read` / `_pad_unread` bookkeeping fields. -/
structure PadState where
  inner : MemFile
  blocksize : Nat
  padLoc : Option Nat
  padRead : List Byte
  padUnread : List Byte
deriving DecidableEq, Repr

/-- `PadToBlockSize._read(sizehint)`: serve pending unread padding first,
report EOF once the padding has been read, otherwise read from the inner
file (rounding a positive hint up to the block size) and, when the read
came up short of the hint or the hint was negative, queue the padding. -/
def PadState.readPrim (st : PadState) (sizehint : Int) :
    Option (List Byte) × PadState :=
  if st.padUnread ≠ [] then
    (some st.padUnread,
     { st with padRead := st.padRead ++ st.padUnread, padUnread := [] })
  else if st.padRead ≠ [] then
    (none, st)
  else
    let sh : Int := if 0 < sizehint
      then (roundUp st.blocksize sizehint.toNat : Int) else sizehint
    let r := if sh < 0 then st.inner.readAll else st.inner.readN sh.toNat
    if sh < 0 ∨ (r.1.length : Int) < sh then
      (some r.1,
       { st with
           inner := r.2,
           padLoc := some (r.2).pos,
           padUnread := paddingOf st.blocksize r.1.length })
    else
      (some r.1, { st with inner := r.2 })

/-- The `FileLikeBase.read()` loop specialised to a fresh `PadToBlockSize`
wrapper: call `_read()` until it reports EOF, concatenating the chunks.
The fuel argument only bounds the number of iterations; `padReadAll`
supplies enough for the three phases (file data, padding, EOF). -/
def PadState.readAllLoop : Nat → PadState → Option (List Byte × PadState)
  | 0, _ => none
  | fuel + 1, st =>
    match st.readPrim (-1) with
    | (none, st2) => some ([], st2)
    | (some d, st2) =>
      match PadState.readAllLoop fuel st2 with
      | none => none
      | some (rest, st3) => some (d ++ rest, st3)

/-- `PadToBlockSize(StringIO(s), b).read()`: the full padded contents. -/
def padReadAll (b : Nat) (s : List Byte) : Option (List Byte) :=
  (PadState.readAllLoop 3 ⟨⟨s, 0⟩, b, none, [], []⟩).map Prod.fst

/-- State of an `UnPadToBlockSize` wrapper: the wrapped file, the block
size and the `_pad_seen` field. -/
structure UnpadState where
  inner : MemFile
  blocksize : Nat
  padSeen : List Byte
deriving DecidableEq, Repr

/-- The read-ahead `while` loop of `UnPadToBlockSize._read`: while the last
`"Z"` sits within one block of the end of the data, read another block
(tracking the growing `sizehint`), stopping at EOF. -/
def unpadLoop (b : Nat) (z : Int) (f : MemFile) (data : List Byte) (sh : Int) :
    Int × MemFile × List Byte × Int :=
  if (data.length : Int) - (b : Int) - 1 ≤ z then
    let r := f.readN b
    let data2 := data ++ r.1
    let z2 := rfind data2 zByte
    if h : r.1 = [] then (z2, r.2, data2, sh + b)
    else unpadLoop b z2 r.2 data2 (sh + b)
  else (z, f, data, sh)
termination_by f.data.length - f.pos
decreasing_by
  have h1 : ((f.readN b).1).length ≠ 0 :=
    fun hl => h (List.eq_nil_of_length_eq_zero hl)
  simp only [MemFile.readN, List.length_take, List.length_drop] at h1 ⊢
  omega

/-- `UnPadToBlockSize._read(sizehint)`: read (rounding a nonnegative hint
up to the block size), read ahead while the candidate sentinel is near the
end, then either report EOF, fail the `assert len(data) <= self.blocksize`,
or strip everything from the sentinel onward into `_pad_seen`.  The tuple
`q` is `(zIdx, fileobj, data, sizehint)` after the read-ahead section. -/
def UnpadState.readPrim (st : UnpadState) (sizehint : Int) :
    Except String (Option (List Byte) × UnpadState) :=
  let b := st.blocksize
  let sh : Int := if 0 ≤ sizehint then (roundUp b sizehint.toNat : Int) else sizehint
  let r := if sh < 0 then st.inner.readAll else st.inner.readN sh.toNat
  let z0 := rfind r.1 zByte
  let q : Int × MemFile × List Byte × Int :=
    if 0 ≤ sizehint then
      let p : MemFile × List Byte × Int :=
        if r.1 = List.replicate b xByte then
          let r2 := (r.2).readN b
          (r2.2, r.1 ++ r2.1, sh + b)
        else (r.2, r.1, sh)
      if 0 ≤ z0 then unpadLoop b z0 p.1 p.2.1 p.2.2
      else (z0, p.1, p.2.1, p.2.2)
    else (z0, r.2, r.1, sh)
  if q.2.2.1 = [] then Except.ok (none, { st with inner := q.2.1 })
  else if q.2.2.2 < 0 ∨ ((q.2.2.1).length : Int) < q.2.2.2 then
    if q.1 < 0 then
      if (q.2.2.1).length ≤ b then Except.ok (none, { st with inner := q.2.1 })
      else Except.error "assert"
    else
      Except.ok (some (pytake q.1 (q.2.2.1)),
        { st with
            inner := q.2.1,
            padSeen := pydrop q.1 (q.2.2.1) })
  else Except.ok (some (q.2.2.1), { st with inner := q.2.1 })

/-- The `FileLikeBase.read()` loop specialised to a fresh `UnPadToBlockSize`
wrapper: call `_read()` until EOF, concatenating; errors propagate. -/
def UnpadState.readAllLoop : Nat → UnpadState → Except String (List Byte × UnpadState)
  | 0, _ => Except.error "fuel"
  | fuel + 1, st =>
    match st.readPrim (-1) with
    | Except.error e => Except.error e
    | Except.ok (none, st2) => Except.ok ([], st2)
    | Except.ok (some d, st2) =>
      match UnpadState.readAllLoop fuel st2 with
      | Except.error e => Except.error e
      | Except.ok (rest, st3) => Except.ok (d ++ rest, st3)

/-- `UnPadToBlockSize(StringIO(content), b).read()`: the unpadded
contents, or the error raised while reading. -/
def unpadReadAll (b : Nat) (content : List Byte) : Except String (List Byte) :=
  (UnpadState.readAllLoop 3 ⟨⟨content, 0⟩, b, []⟩).map Prod.fst

deriving instance DecidableEq for Except

/-! ## The `FixedBlockSize` wrapper (`filelike/wrappers.py`)

`FixedBlockSize._write` writes the largest block-aligned prefix, buffers the
remainder when not flushing, and on a flushing write completes the final
block by borrowing bytes already present in the inner file (when the
wrapper is readable) — with no other padding source: an unreadable wrapper
simply writes the remainder short. -/

/-- `FixedBlockSize._write(data, flushing)` over an inner `MemFile`.
Returns the inner file afterwards, the list of payloads passed to the inner
`write` (in order), and the leftover returned to the base layer (`[]`
models Python `""`).  When `readable` is false (`mode="w"`), `_check_mode("r")`
fails, so no read-ahead happens and the trailing `self.seek(...)` is
skipped; when `readable` is true the model covers both inner `write` calls
and the read-ahead, omitting only the trailing wrapper-level
`self.seek(padstart - blocksize, 1)`, which repositions without writing
when the wrapper's own buffers are empty. -/
def fbsWrite (b : Nat) (readable : Bool) (f : MemFile) (data : List Byte)
    (flushing : Bool) : MemFile × List (List Byte) × List Byte :=
  let size := roundDown b data.length
  let f1 := f.write (data.take size)
  if data.length = size then (f1, [data.take size], [])
  else if ¬flushing then (f1, [data.take size], data.drop size)
  else
    let rb := if readable then f1.readN b else ([], f1)
    let f3 := if readable then (rb.2).seekRel (-(((rb.1).length : Int))) else rb.2
    let padstart := data.length - size
    let payload2 := data.drop size ++ (rb.1).drop padstart
    (f3.write payload2, [data.take size, payload2], [])

/-- A sequence of public `write` calls on a `FixedBlockSize` wrapper: each
call concatenates the pending write buffer with the new data, invokes
`_write(..., flushing=False)` and keeps the returned leftover as the new
write buffer (the read and shadow buffers stay empty in a pure write run).
Returns the final inner file, the final write buffer, and every payload
handed to the inner `write`. -/
def fbsWriteSeq (b : Nat) (readable : Bool) :
    MemFile → List Byte → List (List Byte) → MemFile × List Byte × List (List Byte)
  | f, wbuf, [] => (f, wbuf, [])
  | f, wbuf, w :: ws =>
    let r := fbsWrite b readable f (wbuf ++ w) false
    let rest := fbsWriteSeq b readable r.1 r.2.2 ws
    (rest.1, rest.2.1, r.2.1 ++ rest.2.2)

/-- A write sequence followed by `flush()` on a write-only (`mode="w"`)
`FixedBlockSize` wrapper: `flush` passes the pending write buffer, when
nonempty, to `_write(..., flushing=True)`.  Returns the full trace of
inner-write payloads. -/
def fbsRunThenFlush (b : Nat) (f : MemFile) (ws : List (List Byte)) :
    List (List Byte) :=
  let r := fbsWriteSeq b false f [] ws
  if r.2.1 = [] then r.2.2
  else r.2.2 ++ (fbsWrite b false r.1 r.2.1 true).2.1

/-- The scenario string `"hello world"` as bytes. -/
def helloWorld : List Byte := [104, 101, 108, 108, 111, 32, 119, 111, 114, 108, 100]

/-- Absolute seeks on a non-resizable bounded slice land exactly on the
target clamped into `[start, stop]`. -/


inductive Err where
  | closedErr
  | flushFail
  | seekFail
  | badWhence
  | assertFail
deriving DecidableEq, Repr

structure FLState where
  inner : MemFile
  cnt : Nat
  rbuf : Option (List Byte)
  wbuf : Option (List Byte)
  sbuf : Option (List Byte)
  closed : Bool
  iclosed : Bool
  lpos : Int
deriving DecidableEq, Repr

def truthyLen (o : Option (List Byte)) : Nat := (o.getD []).length

def pread (orc : Nat → Nat) (s : FLState) : Option (List Byte) × FLState :=
  let avail := s.inner.data.length - s.inner.pos
  if avail = 0 then (none, { s with cnt := s.cnt + 1 })
  else
    let k := min (max (orc s.cnt) 1) avail
    (some ((s.inner.data.drop s.inner.pos).take k),
     { s with
         inner := { s.inner with pos := s.inner.pos + k },
         cnt := s.cnt + 1 })

def pwrite (orc : Nat → Nat) (s : FLState) (d : List Byte) (flushing : Bool) :
    Option (List Byte) × FLState :=
  if flushing then
    (none, { s with inner := s.inner.write d, cnt := s.cnt + 1 })
  else
    let k := min (orc s.cnt) d.length
    (if d.drop k = [] then none else some (d.drop k),
     { s with inner := s.inner.write (d.take k), cnt := s.cnt + 1 })

def pseek (g : Nat) (s : FLState) (target : Int) :
    Option (List Byte × FLState) :=
  if target < 0 then none
  else
    let t := target.toNat
    if s.inner.data.length < t then none
    else
      let bd := t / g * g
      some ((s.inner.data.drop bd).take (t - bd),
            { s with inner := { s.inner with pos := bd } })

def tellFn (s : FLState) : Int :=
  (s.inner.pos : Int) - truthyLen s.rbuf + truthyLen s.wbuf + truthyLen s.sbuf

def flushOp (orc : Nat → Nat) (s : FLState) : Except Err FLState :=
  if s.closed then Except.error Err.closedErr
  else
    let p : List Byte × FLState :=
      match s.sbuf with
      | some l => if l = [] then ([], s) else (l, { s with sbuf := none })
      | none => ([], s)
    let buffered := p.1 ++ (p.2).wbuf.getD []
    if buffered = [] then Except.ok { p.2 with wbuf := none }
    else
      match pwrite orc p.2 buffered true with
      | (some _, _) => Except.error Err.flushFail
      | (none, s2) => Except.ok { s2 with wbuf := none }

def readToEof (orc : Nat → Nat) : Nat → FLState → List Byte × FLState
  | 0, s => ([], s)
  | fuel + 1, s =>
    match pread orc s with
    | (none, s2) => ([], s2)
    | (some c, s2) =>
      let r := readToEof orc fuel s2
      (c ++ r.1, r.2)

def readLoop (orc : Nat → Nat) : Nat → FLState → Nat → Nat → List Byte × FLState
  | 0, s, _, _ => ([], s)
  | fuel + 1, s, size, sofar =>
    if sofar < size then
      match pread orc s with
      | (none, s2) => ([], s2)
      | (some c, s2) =>
        let r := readLoop orc fuel s2 size (sofar + c.length)
        (c ++ r.1, r.2)
    else ([], s)

def stripShadow (output : List Byte) (s : FLState) :
    Except Err (List Byte × FLState) :=
  match s.sbuf with
  | some sb =>
    if sb = [] then
      Except.ok (output, { s with lpos := s.lpos + output.length })
    else if sb.isPrefixOf output then
      Except.ok (output.drop sb.length,
        { s with
            sbuf := none,
            lpos := s.lpos + ((output.length - sb.length : Nat) : Int) })
    else Except.error Err.assertFail
  | none => Except.ok (output, { s with lpos := s.lpos + output.length })

def readBody (orc : Nat → Nat) (s1 : FLState) (n : Int) :
    Except Err (List Byte × FLState) :=
  if n ≤ 0 then
    let r := readToEof orc (s1.inner.data.length - s1.inner.pos + 1)
      { s1 with rbuf := some [] }
    stripShadow (s1.rbuf.getD [] ++ r.1) r.2
  else
    let size := n.toNat + truthyLen s1.sbuf
    let r := readLoop orc (s1.inner.data.length - s1.inner.pos + 1) s1
      size (s1.rbuf.getD []).length
    let all := s1.rbuf.getD [] ++ r.1
    if size < all.length then
      stripShadow (all.take size) { r.2 with rbuf := some (all.drop size) }
    else
      stripShadow all { r.2 with rbuf := some [] }

def seekOp (g : Nat) (orc : Nat → Nat) (s : FLState) (off : Int)
    (whence : Nat) : Except Err FLState :=
  match flushOp orc s with
  | Except.error e => Except.error e
  | Except.ok s1 =>
    if (if whence = 1 then off - (truthyLen s1.rbuf : Int) + (truthyLen s1.sbuf : Int)
        else off) = 0 ∧ whence = 1 then
      Except.ok { s1 with rbuf := none, sbuf := none, lpos := s.lpos + off }
    else if whence = 0 then
      match pseek g { s1 with rbuf := none, sbuf := none } off with
      | none => Except.error Err.seekFail
      | some (shadow, s4) =>
        Except.ok { s4 with sbuf := some shadow, lpos := off }
    else if whence = 1 then
      match pseek g { s1 with rbuf := none, sbuf := none }
        (tellFn { s1 with rbuf := none, sbuf := none }
          + (off - (truthyLen s1.rbuf : Int) + (truthyLen s1.sbuf : Int))) with
      | none => Except.error Err.seekFail
      | some (shadow, s4) =>
        Except.ok { s4 with sbuf := some shadow, lpos := s.lpos + off }
    else if whence = 2 then
      match readBody orc { s1 with rbuf := none, sbuf := none } (-1) with
      | Except.error e => Except.error e
      | Except.ok p =>
        match pseek g p.2 (tellFn p.2 + off) with
        | none => Except.error Err.seekFail
        | some (shadow, s4) =>
          Except.ok { s4 with sbuf := some shadow, lpos := tellFn p.2 + off }
    else Except.error Err.badWhence

def readOp (g : Nat) (orc : Nat → Nat) (s : FLState) (n : Int) :
    Except Err (List Byte × FLState) :=
  if s.closed then Except.error Err.closedErr
  else
    match (if s.wbuf ≠ none then seekOp g orc s 0 1 else Except.ok s) with
    | Except.error e => Except.error e
    | Except.ok s1 => readBody orc s1 n

def writeBody (orc : Nat → Nat) (s1 : FLState) (d : List Byte) :
    Except Err FLState :=
  let p : List Byte × FLState :=
    match s1.sbuf with
    | some l => if l = [] then (d, s1) else (l ++ d, { s1 with sbuf := none })
    | none => (d, s1)
  let r := pwrite orc p.2 ((p.2).wbuf.getD [] ++ p.1) false
  Except.ok { r.2 with
    wbuf := some ((r.1).getD []),
    lpos := (p.2).lpos + d.length }

def writeOp (g : Nat) (orc : Nat → Nat) (s : FLState) (d : List Byte) :
    Except Err FLState :=
  if s.closed then Except.error Err.closedErr
  else
    match (if s.rbuf ≠ none then seekOp g orc s 0 1 else Except.ok s) with
    | Except.error e => Except.error e
    | Except.ok s1 => writeBody orc s1 d

def closeOp (orc : Nat → Nat) (s : FLState) : Except Err FLState :=
  if s.closed then Except.ok s
  else
    match flushOp orc s with
    | Except.error e => Except.error e
    | Except.ok s1 => Except.ok { s1 with closed := true }

def closeW (orc : Nat → Nat) (s : FLState) : Except Err FLState :=
  match closeOp orc s with
  | Except.error e => Except.error e
  | Except.ok s1 => Except.ok { s1 with iclosed := true }

inductive Op where
  | rd (n : Int)
  | wr (d : List Byte)
  | sk (off : Int) (whence : Nat)
  | fl
  | cl
deriving DecidableEq, Repr

def step (g : Nat) (orc : Nat → Nat) (s : FLState) : Op → Except Err FLState
  | Op.rd n =>
    match readOp g orc s n with
    | Except.error e => Except.error e
    | Except.ok p => Except.ok p.2
  | Op.wr d => writeOp g orc s d
  | Op.sk off w => seekOp g orc s off w
  | Op.fl => flushOp orc s
  | Op.cl => closeW orc s

def runOps (g : Nat) (orc : Nat → Nat) : FLState → List Op → Except Err FLState
  | s, [] => Except.ok s
  | s, op :: ops =>
    match step g orc s op with
    | Except.error e => Except.error e
    | Except.ok s2 => runOps g orc s2 ops

def initState (content : List Byte) : FLState :=
  { inner := ⟨content, 0⟩, cnt := 0, rbuf := none, wbuf := none, sbuf := none,
    closed := false, iclosed := false, lpos := 0 }

def fbsSeekPrim (b : Nat) (f : MemFile) (offset : Nat) : List Byte × MemFile :=
  let boundary := roundDown b offset
  let f1 := f.seekTo boundary
  if boundary = offset then ([], f1)
  else
    let r := f1.readN b
    let diff : Int := (offset : Int) - boundary - ((r.1).length : Int)
    let f2 := if 0 < diff then ((r.2).seekRel diff).seekRel (-diff) else r.2
    let f3 := f2.seekRel (-(((r.1).length : Int)))
    ((r.1).take (offset - boundary), f3)

def fbsSeekTell (b : Nat) (content : List Byte) (offset : Nat) : Nat :=
  let r := fbsSeekPrim b ⟨content, 0⟩ offset
  r.2.pos + (r.1).length

def c1ops : List Op :=
  [Op.wr [1, 2, 3], Op.sk 2 0, Op.rd 3, Op.sk (-1) 1, Op.sk (-2) 2]

def c1final : FLState :=
  match runOps 3 (fun _ => 2) (initState [10, 20, 30, 40, 50, 60, 70]) c1ops with
  | Except.ok s => s
  | Except.error _ => initState []

def c7closed : FLState :=
  { inner := ⟨[1, 2], 0⟩, cnt := 0, rbuf := none, wbuf := none, sbuf := none,
    closed := true, iclosed := true, lpos := 0 }

def c9closed : FLState :=
  { inner := ⟨[5, 6, 7], 0⟩, cnt := 0, rbuf := none, wbuf := none, sbuf := none,
    closed := true, iclosed := true, lpos := 0 }

theorem seek0_split (f : MemFile) (start t : Nat) (off : Int) (hst : start ≤ t) :
    (SliceState.seek0 ⟨f, start, some t, false⟩ off).start = start ∧
    (SliceState.seek0 ⟨f, start, some t, false⟩ off).stop = some t ∧
    ((SliceState.seek0 ⟨f, start, some t, false⟩ off).inner.pos : Int) =
      max (start : Int) (min (t : Int) ((start : Int) + off)) := by
  simp only [SliceState.seek0, MemFile.seekTo, Bool.false_eq_true, if_false]
  split_ifs with h1 h2 <;> refine ⟨rfl, rfl, ?_⟩ <;> (try dsimp only) <;> omega

/-- Relative seeks on a bounded slice land exactly on the target clamped
into `[start, stop]`. -/
theorem seek1_split (f : MemFile) (start t : Nat) (res : Bool) (off : Int)
    (hst : start ≤ t) :
    (SliceState.seek1 ⟨f, start, some t, res⟩ off).start = start ∧
    (SliceState.seek1 ⟨f, start, some t, res⟩ off).stop = some t ∧
    ((SliceState.seek1 ⟨f, start, some t, res⟩ off).inner.pos : Int) =
      max (start : Int) (min (t : Int) ((f.pos : Int) + off)) := by
  refine ⟨?_, ?_, ?_⟩
  · simp only [SliceState.seek1]
  · simp only [SliceState.seek1]
  · simp only [SliceState.seek1, MemFile.seekRel]
    split_ifs with h1 h2 <;> omega

/-- C6: a write through a non-resizable bounded `Slice` that would run past
the `stop` bound first writes into the inner stream exactly the prefix of
the data that fits below the bound (`stop - pos` bytes) and then raises
`IOError("File not resizable")`; the prefix stays written. -/
theorem c6_slice_write_overflow (st : SliceState) (d : List Byte) (t : Nat)
    (hstop : st.stop = some t) (hres : st.resizable = false)
    (hpos : st.inner.pos ≤ t) (hover : t < st.inner.pos + d.length) :
    SliceState.write st d =
      ({ st with inner := st.inner.write (d.take (t - st.inner.pos)) }, true) ∧
    (d.take (t - st.inner.pos)).length = t - st.inner.pos := by
  constructor
  · simp only [SliceState.write, hstop, hres]
    rw [if_pos hover]
    simp only [Bool.false_eq_true, if_false]
    have h1 : pytake ((t : Int) - st.inner.pos) d = d.take (t - st.inner.pos) := by
      simp only [pytake]
      rw [if_pos (by omega)]
      congr 1
      omega
    rw [h1]
  · rw [List.length_take]
    omega

/-- Witness for C6 at the repository's own test scenario: a slice of
`[2, 6)` over a ten-byte file, with eight bytes written at position 2. -/
theorem c6_slice_write_witness :
    SliceState.write ⟨⟨[0, 1, 2, 3, 4, 5, 6, 7, 8, 9], 2⟩, 2, some 6, false⟩
        [50, 51, 52, 53, 54, 55, 56, 57] =
      ({ inner := MemFile.write ⟨[0, 1, 2, 3, 4, 5, 6, 7, 8, 9], 2⟩
            ([50, 51, 52, 53, 54, 55, 56, 57].take (6 - 2)),
         start := 2, stop := some 6, resizable := false }, true) ∧
    ([50, 51, 52, 53, 54, 55, 56, 57].take (6 - 2)).length = 6 - 2 :=
  c6_slice_write_overflow ⟨⟨[0, 1, 2, 3, 4, 5, 6, 7, 8, 9], 2⟩, 2, some 6, false⟩
    [50, 51, 52, 53, 54, 55, 56, 57] 6 rfl rfl (by decide) (by decide)

/-- C10: on a non-resizable slice with a `stop` bound, absolute and
relative seeks never raise and always land on the requested target clamped
into `[start, stop]`: targets before `start` clamp to `start`, targets past
`stop` clamp to `stop`. -/
theorem c10_slice_seek_clamp (st : SliceState) (off : Int) (w : Nat) (t : Nat)
    (hstop : st.stop = some t) (hres : st.resizable = false)
    (hst : st.start ≤ t) (hw : w = 0 ∨ w = 1) :
    ∃ st2, SliceState.seek st off w = Except.ok st2 ∧
      st2.start = st.start ∧ st2.stop = some t ∧
      (st2.inner.pos : Int) =
        max (st.start : Int) (min (t : Int)
          (if w = 0 then (st.start : Int) + off else (st.inner.pos : Int) + off)) ∧
      st.start ≤ st2.inner.pos ∧ st2.inner.pos ≤ t := by
  obtain ⟨f, start, stop, res⟩ := st
  simp only at hstop hres hst ⊢
  subst hstop
  subst hres
  rcases hw with rfl | rfl
  · obtain ⟨h1, h2, h3⟩ := seek0_split f start t off hst
    exact ⟨_, rfl, h1, h2, by simpa using h3, by omega, by omega⟩
  · obtain ⟨h1, h2, h3⟩ := seek1_split f start t false off hst
    exact ⟨_, rfl, h1, h2, by simpa using h3, by omega, by omega⟩

/-- Witness for C10: absolute seek far past the bound on a `[10, 20]`
slice lands exactly on 20. -/
theorem c10_slice_seek_witness :
    ∃ st2, SliceState.seek ⟨⟨List.replicate 30 7, 12⟩, 10, some 20, false⟩ 99 0 =
        Except.ok st2 ∧
      st2.start = 10 ∧ st2.stop = some 20 ∧
      (st2.inner.pos : Int) =
        max ((10 : Nat) : Int) (min ((20 : Nat) : Int)
          (if (0 : Nat) = 0 then (((10 : Nat) : Int) + 99)
           else ((12 : Nat) : Int) + 99)) ∧
      10 ≤ st2.inner.pos ∧ st2.inner.pos ≤ 20 :=
  c10_slice_seek_clamp ⟨⟨List.replicate 30 7, 12⟩, 10, some 20, false⟩ 99 0 20
    rfl rfl (by decide) (Or.inl rfl)

/-! ## Padding lemmas and claims C2, C4, C8 -/

theorem MemFile.readN_len (f : MemFile) (k : Nat) :
    ((f.readN k).1).length = min k (f.data.length - f.pos) := by
  simp [MemFile.readN]

theorem rfindAux_append (c : Byte) (l1 l2 : List Byte) (i : Nat) (acc : Int) :
    rfindAux c (l1 ++ l2) i acc =
      rfindAux c l2 (i + l1.length) (rfindAux c l1 i acc) := by
  induction l1 generalizing i acc with
  | nil => simp [rfindAux]
  | cons x xs ih =>
    simp only [List.cons_append, rfindAux, List.length_cons, List.append_eq]
    rw [ih, show i + (xs.length + 1) = i + 1 + xs.length from by omega]

theorem rfindAux_of_not_mem (c : Byte) (l : List Byte) (h : c ∉ l)
    (i : Nat) (acc : Int) : rfindAux c l i acc = acc := by
  induction l generalizing i with
  | nil => rfl
  | cons x xs ih =>
    simp only [List.mem_cons, not_or] at h
    have hxc : ¬(x = c) := fun hx => h.1 (Eq.symm hx)
    simp only [rfindAux, if_neg hxc]
    exact ih h.2 (i + 1)

/-- `rfind` locates the appended sentinel: the last `"Z"` of
`s + "Z" + "X"*k` is the appended one, at index `len(s)`. -/
theorem rfind_sentinel (s : List Byte) (k : Nat) :
    rfind (s ++ zByte :: List.replicate k xByte) zByte = (s.length : Int) := by
  unfold rfind
  rw [rfindAux_append]
  simp only [rfindAux, eq_self_iff_true, if_true]
  rw [rfindAux_of_not_mem]
  · omega
  · intro hmem
    have := List.eq_of_mem_replicate hmem
    exact absurd this (by decide)

/-- Reading a `PadToBlockSize` wrapper to EOF yields the inner contents
followed by the computed padding. -/
theorem padReadAll_eq (b : Nat) (s : List Byte) :
    padReadAll b s = some (s ++ paddingOf b s.length) := by
  have h1 : PadState.readPrim ⟨⟨s, 0⟩, b, none, [], []⟩ (-1) =
      (some s, ⟨⟨s, s.length⟩, b, some s.length, [], paddingOf b s.length⟩) := by
    simp [PadState.readPrim, MemFile.readAll]
  have hpad : ¬(paddingOf b s.length = []) := by simp [paddingOf]
  have h2 : PadState.readPrim ⟨⟨s, s.length⟩, b, some s.length, [],
      paddingOf b s.length⟩ (-1) =
      (some (paddingOf b s.length),
       ⟨⟨s, s.length⟩, b, some s.length, paddingOf b s.length, []⟩) := by
    simp only [PadState.readPrim]
    rw [if_pos hpad]
    simp
  have h3 : PadState.readPrim ⟨⟨s, s.length⟩, b, some s.length,
      paddingOf b s.length, []⟩ (-1) =
      (none, ⟨⟨s, s.length⟩, b, some s.length, paddingOf b s.length, []⟩) := by
    simp only [PadState.readPrim]
    rw [if_neg (by simp)]
    rw [if_pos hpad]
  simp [padReadAll, PadState.readAllLoop, h1, h2, h3]

/-- On `sizehint = -1` (the read-everything call used by
`FileLikeBase.read()`), `UnPadToBlockSize._read` reduces to: read all,
locate the last `"Z"`, and either report EOF, fail the assert, or strip
from the sentinel onward. -/
theorem unpad_readPrim_neg (st : UnpadState) :
    st.readPrim (-1) =
      (let r := st.inner.readAll
       let z := rfind r.1 zByte
       if r.1 = [] then Except.ok (none, { st with inner := r.2 })
       else if z < 0 then
         if (r.1).length ≤ st.blocksize then
           Except.ok (none, { st with inner := r.2 })
         else Except.error "assert"
       else
         Except.ok (some (pytake z r.1),
           { st with
               inner := r.2,
               padSeen := pydrop z r.1 })) := by
  simp only [UnpadState.readPrim]
  norm_num

/-- C2: for every `blockSize >= 1` and every byte string `s`, reading a
`PadToBlockSize` wrapper over `s` to EOF and then reading that padded
content back through `UnPadToBlockSize` returns exactly `s`. -/
theorem c2_pad_unpad_roundtrip (b : Nat) (hb : 1 ≤ b) (s : List Byte) :
    ∃ padded, padReadAll b s = some padded ∧
      unpadReadAll b padded = Except.ok s := by
  refine ⟨s ++ paddingOf b s.length, padReadAll_eq b s, ?_⟩
  set pad := paddingOf b s.length with hpad
  have hzf : rfind (s ++ pad) zByte = (s.length : Int) := by
    rw [hpad]
    unfold paddingOf
    exact rfind_sentinel s _
  have hne : ¬(s ++ pad = []) := by
    rw [hpad]
    simp [paddingOf]
  have h1 : UnpadState.readPrim ⟨⟨s ++ pad, 0⟩, b, []⟩ (-1) =
      Except.ok (some s,
        ⟨⟨s ++ pad, (s ++ pad).length⟩, b, pad⟩) := by
    rw [unpad_readPrim_neg]
    simp only [MemFile.readAll, List.drop_zero, hzf]
    rw [if_neg hne, if_neg (by omega : ¬((s.length : Int) < 0))]
    have ht : pytake (s.length : Int) (s ++ pad) = s := by
      simp [pytake, List.take_left]
    have hd : pydrop (s.length : Int) (s ++ pad) = pad := by
      simp [pydrop, List.drop_left]
    rw [ht, hd]
    norm_num
  have h2 : UnpadState.readPrim ⟨⟨s ++ pad, (s ++ pad).length⟩, b, pad⟩ (-1) =
      Except.ok (none, ⟨⟨s ++ pad, (s ++ pad).length⟩, b, pad⟩) := by
    rw [unpad_readPrim_neg]
    simp [MemFile.readAll]
  simp only [unpadReadAll, UnpadState.readAllLoop, h1, h2]
  simp [Except.map]

/-- Witness for C2 at `blockSize = 5` and `s = "hello"`. -/
theorem c2_roundtrip_witness :
    ∃ padded, padReadAll 5 [104, 101, 108, 108, 111] = some padded ∧
      unpadReadAll 5 padded = Except.ok [104, 101, 108, 108, 111] :=
  c2_pad_unpad_roundtrip 5 (by decide) [104, 101, 108, 108, 111]

/-- C4 counterexample: `UnPadToBlockSize` over a zero-byte stream with
`blockSize = 5 > 0` does NOT raise any error on read; it returns the empty
string (EOF), refuting the claimed malformed-padding error. -/
theorem c4_empty_unpad_counterexample : unpadReadAll 5 [] = Except.ok [] := by
  decide

/-- C4 amended: for every `blockSize > 0`, reading an `UnPadToBlockSize`
wrapper over an empty inner stream succeeds and returns empty output
(immediate EOF); no error of any kind is raised. -/
theorem c4_empty_unpad_amended (b : Nat) (hb : 0 < b) :
    unpadReadAll b [] = Except.ok [] := by
  have h1 : UnpadState.readPrim ⟨⟨[], 0⟩, b, []⟩ (-1) =
      Except.ok (none, ⟨⟨[], 0⟩, b, []⟩) := by
    rw [unpad_readPrim_neg]
    simp [MemFile.readAll]
  simp [unpadReadAll, UnpadState.readAllLoop, h1, Except.map]

/-- Witness for the amended C4 at `blockSize = 7`. -/
theorem c4_empty_unpad_witness : unpadReadAll 7 [] = Except.ok [] :=
  c4_empty_unpad_amended 7 (by decide)

theorem roundUp_one (b : Nat) (hb : 1 ≤ b) : roundUp b 1 = b := by
  have h : b = 1 ∨ 1 < b := by omega
  rcases h with rfl | h
  · simp [roundUp]
  · unfold roundUp
    rw [if_neg (by rw [Nat.mod_eq_of_lt h]; omega), Nat.div_eq_of_lt h]
    omega

/-- C8: for every `blockSize = b >= 1`, a `PadToBlockSize` wrapper over an
empty inner stream reads as exactly one sentinel `"Z"` plus `b - 1` filler
`"X"` bytes — a block of exactly `b` bytes. -/
theorem c8_empty_pad_block (b : Nat) (hb : 1 ≤ b) :
    padReadAll b [] = some (zByte :: List.replicate (b - 1) xByte) ∧
    (zByte :: List.replicate (b - 1) xByte).length = b := by
  constructor
  · rw [padReadAll_eq]
    simp only [List.nil_append, paddingOf, List.length_nil, Nat.zero_add,
      Nat.sub_zero, roundUp_one b hb]
  · simp
    omega

/-- Witness for C8 at `blockSize = 5`: the read yields `"ZXXXX"`. -/
theorem c8_empty_pad_witness :
    padReadAll 5 [] = some (zByte :: List.replicate (5 - 1) xByte) ∧
    (zByte :: List.replicate (5 - 1) xByte).length = 5 :=
  c8_empty_pad_block 5 (by decide)

/-! ## FixedBlockSize lemmas and claims C3, C5 -/

theorem roundDown_mod (b n : Nat) : roundDown b n % b = 0 := by
  unfold roundDown
  split_ifs with h
  · exact h
  · exact Nat.mul_mod_left (n / b) b

theorem roundDown_le (b n : Nat) : roundDown b n ≤ n := by
  unfold roundDown
  split_ifs with h
  · exact le_refl n
  · exact Nat.div_mul_le_self n b

/-- When `data.length % b ≠ 0`, the aligned prefix is strictly shorter
than the data. -/
theorem roundDown_ne_of_mod (b n : Nat) (hmod : n % b ≠ 0) :
    ¬(n = roundDown b n) := by
  unfold roundDown
  rw [if_neg hmod]
  have hd := Nat.div_add_mod n b
  rw [Nat.mul_comm] at hd
  intro he
  omega

/-- A non-flushing `_write` makes exactly one inner write: the aligned
prefix. -/
theorem fbsWrite_nonflush_payloads (b : Nat) (r : Bool) (f : MemFile)
    (d : List Byte) :
    (fbsWrite b r f d false).2.1 = [d.take (roundDown b d.length)] := by
  simp only [fbsWrite]
  by_cases h : d.length = roundDown b d.length
  · rw [if_pos h]
  · rw [if_neg h, if_pos (by decide : ¬(false = true))]

/-- A flushing `_write` of already-aligned data makes exactly one inner
write. -/
theorem fbsWrite_flush_aligned (b : Nat) (r : Bool) (f : MemFile) (d : List Byte)
    (h : d.length = roundDown b d.length) :
    (fbsWrite b r f d true).2.1 = [d.take (roundDown b d.length)] := by
  simp only [fbsWrite]
  rw [if_pos h]

/-- A flushing `_write` of unaligned data makes exactly two inner writes:
the aligned prefix, then the remainder extended by whatever read-ahead
bytes were available past `padstart`. -/
theorem fbsWrite_flush_payloads (b : Nat) (r : Bool) (f : MemFile) (d : List Byte)
    (h : ¬d.length = roundDown b d.length) :
    (fbsWrite b r f d true).2.1 =
      [d.take (roundDown b d.length),
       d.drop (roundDown b d.length) ++
         ((if r = true then (f.write (d.take (roundDown b d.length))).readN b
           else ([], f.write (d.take (roundDown b d.length)))).1).drop
           (d.length - roundDown b d.length)] := by
  simp only [fbsWrite]
  rw [if_neg h, if_neg (by simp : ¬¬True)]

theorem fbsWrite_payload_aligned (b : Nat) (r : Bool) (f : MemFile)
    (d : List Byte) (p : List Byte)
    (hp : p ∈ (fbsWrite b r f d false).2.1) : p.length % b = 0 := by
  rw [fbsWrite_nonflush_payloads] at hp
  simp only [List.mem_singleton] at hp
  subst hp
  rw [List.length_take, min_eq_left (roundDown_le b d.length)]
  exact roundDown_mod b d.length

/-- Every inner write performed during a sequence of public writes is
block-aligned. -/
theorem fbsWriteSeq_aligned (b : Nat) (r : Bool) (ws : List (List Byte)) :
    ∀ (f : MemFile) (wbuf : List Byte) (p : List Byte),
      p ∈ (fbsWriteSeq b r f wbuf ws).2.2 → p.length % b = 0 := by
  induction ws with
  | nil => intro f wbuf p hp; simp [fbsWriteSeq] at hp
  | cons w ws ih =>
    intro f wbuf p hp
    simp only [fbsWriteSeq, List.mem_append] at hp
    rcases hp with hp | hp
    · exact fbsWrite_payload_aligned b r f (wbuf ++ w) p hp
    · exact ih _ _ p hp

theorem mem_dropLast_append_pair {A : List (List Byte)} {a c p : List Byte}
    (hp : p ∈ (A ++ [a, c]).dropLast) : p ∈ A ∨ p = a := by
  rw [show A ++ [a, c] = (A ++ [a]) ++ [c] from by simp,
    List.dropLast_concat] at hp
  rcases List.mem_append.mp hp with h | h
  · exact Or.inl h
  · exact Or.inr (List.mem_singleton.mp h)

/-- C3 counterexample: `FixedBlockSize(blockSize=8)` flushing the 11 bytes
`"hello world"` over an inner stream whose content is exactly
`"hello world"` performs inner writes totalling 11 bytes — not the claimed
16 — both when the wrapper is write-only and when it is readable (the
read-ahead finds only 3 trailing bytes, all consumed as the remainder
itself), and no zero byte is ever written as padding. -/
theorem c3_flush_pad_counterexample :
    (((fbsWrite 8 false ⟨helloWorld, 0⟩ helloWorld true).2.1).map List.length).sum
      = 11 ∧
    (((fbsWrite 8 true ⟨helloWorld, 0⟩ helloWorld true).2.1).map List.length).sum
      = 11 ∧
    ¬(0 ∈ ((fbsWrite 8 false ⟨helloWorld, 0⟩ helloWorld true).2.1).flatten) ∧
    (11 : Nat) ≠ 16 := by decide

/-- C3 amended: a flushing `FixedBlockSize` write of unaligned data on a
write-only wrapper (no inner bytes available for reuse) writes the aligned
prefix and then the bare remainder — no padding of any kind — so the inner
writes total exactly the data length. -/
theorem c3_flush_unaligned_amended (b : Nat) (hb : 1 ≤ b) (f : MemFile)
    (data : List Byte) (hmod : data.length % b ≠ 0) :
    (fbsWrite b false f data true).2.1 =
      [data.take (roundDown b data.length), data.drop (roundDown b data.length)] ∧
    (((fbsWrite b false f data true).2.1).map List.length).sum = data.length := by
  have hun := roundDown_ne_of_mod b data.length hmod
  have h := fbsWrite_flush_payloads b false f data hun
  simp only [Bool.false_eq_true, if_false, List.drop_nil] at h
  rw [List.append_nil] at h
  refine ⟨h, ?_⟩
  rw [h]
  simp only [List.map_cons, List.map_nil, List.sum_cons, List.sum_nil,
    List.length_take, List.length_drop, min_eq_left (roundDown_le b data.length)]
  have := roundDown_le b data.length
  omega

/-- Witness for the amended C3 at the `"hello world"` scenario. -/
theorem c3_flush_witness :
    (fbsWrite 8 false ⟨helloWorld, 0⟩ helloWorld true).2.1 =
      [helloWorld.take (roundDown 8 helloWorld.length),
       helloWorld.drop (roundDown 8 helloWorld.length)] ∧
    (((fbsWrite 8 false ⟨helloWorld, 0⟩ helloWorld true).2.1).map List.length).sum =
      helloWorld.length :=
  c3_flush_unaligned_amended 8 (by decide) ⟨helloWorld, 0⟩ helloWorld (by decide)

/-- C5: for every `blockSize = b >= 1` and every sequence of public write
calls through `FixedBlockSize`, every payload handed to the inner stream's
write is an exact multiple of `b`; with a final `flush()` appended, every
payload except the last one — the remainder written during the final
flushing `_write` — is an exact multiple of `b`. -/
theorem c5_block_alignment (b : Nat) (hb : 1 ≤ b) (f : MemFile)
    (ws : List (List Byte)) (readable : Bool) :
    (∀ p ∈ (fbsWriteSeq b readable f [] ws).2.2, p.length % b = 0) ∧
    (∀ p ∈ (fbsRunThenFlush b f ws).dropLast, p.length % b = 0) := by
  constructor
  · intro p hp
    exact fbsWriteSeq_aligned b readable ws f [] p hp
  · intro p hp
    unfold fbsRunThenFlush at hp
    set r := fbsWriteSeq b false f [] ws with hr
    by_cases hwb : r.2.1 = []
    · rw [if_pos hwb] at hp
      exact fbsWriteSeq_aligned b false ws f [] p
        ((List.dropLast_sublist (r.2.2)).subset hp)
    · rw [if_neg hwb] at hp
      by_cases hal : (r.2.1).length = roundDown b (r.2.1).length
      · rw [fbsWrite_flush_aligned b false r.1 r.2.1 hal,
          List.dropLast_concat] at hp
        exact fbsWriteSeq_aligned b false ws f [] p hp
      · rw [fbsWrite_flush_payloads b false r.1 r.2.1 hal] at hp
        rcases mem_dropLast_append_pair hp with hp | hp
        · exact fbsWriteSeq_aligned b false ws f [] p hp
        · subst hp
          rw [List.length_take, min_eq_left (roundDown_le b (r.2.1).length)]
          exact roundDown_mod b (r.2.1).length

/-- Witness for C5: two unaligned writes then a flush at `blockSize = 8`. -/
theorem c5_block_alignment_witness :
    (∀ p ∈ (fbsWriteSeq 8 true ⟨[], 0⟩ [] [[1, 2, 3], [4, 5, 6, 7, 8, 9]]).2.2,
      p.length % 8 = 0) ∧
    (∀ p ∈ (fbsRunThenFlush 8 ⟨[], 0⟩ [[1, 2, 3], [4, 5, 6, 7, 8, 9]]).dropLast,
      p.length % 8 = 0) :=
  c5_block_alignment 8 (by decide) ⟨[], 0⟩ [[1, 2, 3], [4, 5, 6, 7, 8, 9]] true


theorem flushOp_spec (orc : Nat → Nat) (s s1 : FLState)
    (h : flushOp orc s = Except.ok s1) :
    s1.inner.pos = s.inner.pos + truthyLen s.sbuf + truthyLen s.wbuf ∧
    s1.rbuf = s.rbuf ∧ s1.wbuf = none ∧ truthyLen s1.sbuf = 0 ∧
    s1.closed = s.closed ∧ s1.iclosed = s.iclosed ∧ s1.lpos = s.lpos ∧
    s.closed = false := by
  obtain ⟨fin, cnt, rb, wb, sb, cl, icl, lp⟩ := s
  cases cl with
  | true => simp [flushOp] at h
  | false =>
    cases sb with
    | none =>
      cases wb with
      | none =>
        simp only [flushOp, pwrite, truthyLen, MemFile.write] at h
        simp at h
        subst h
        simp [truthyLen]
      | some m =>
        by_cases hm : m = []
        · subst hm
          simp [flushOp, pwrite, truthyLen, MemFile.write] at h
          subst h
          simp [truthyLen]
        · simp [flushOp, pwrite, truthyLen, MemFile.write, hm] at h
          subst h
          simp [truthyLen, MemFile.write]
    | some l =>
      by_cases hl : l = []
      · subst hl
        cases wb with
        | none =>
          simp [flushOp, pwrite, truthyLen, MemFile.write] at h
          subst h
          simp [truthyLen]
        | some m =>
          by_cases hm : m = []
          · subst hm
            simp [flushOp, pwrite, truthyLen, MemFile.write] at h
            subst h
            simp [truthyLen]
          · simp [flushOp, pwrite, truthyLen, MemFile.write, hm] at h
            subst h
            simp [truthyLen, MemFile.write]
      · simp [flushOp, pwrite, truthyLen, MemFile.write, hl] at h
        subst h
        simp [truthyLen, MemFile.write, hl]
        omega

theorem pseek_spec (g : Nat) (s : FLState) (target : Int) (sh : List Byte)
    (s4 : FLState) (h : pseek g s target = some (sh, s4)) :
    (s4.inner.pos : Int) + sh.length = target ∧
    s4.inner.data = s.inner.data ∧ s4.rbuf = s.rbuf ∧
    s4.wbuf = s.wbuf ∧ s4.sbuf = s.sbuf ∧ s4.closed = s.closed ∧
    s4.iclosed = s.iclosed ∧ s4.lpos = s.lpos := by
  unfold pseek at h
  by_cases h0 : target < 0
  · rw [if_pos h0] at h
    cases h
  · rw [if_neg h0] at h
    by_cases h1 : s.inner.data.length < target.toNat
    · rw [if_pos h1] at h
      cases h
    · rw [if_neg h1] at h
      simp only [Option.some.injEq, Prod.mk.injEq] at h
      obtain ⟨hsh, hs4⟩ := h
      subst hsh
      subst hs4
      refine ⟨?_, rfl, rfl, rfl, rfl, rfl, rfl, rfl⟩
      simp only [List.length_take, List.length_drop]
      have hbd : target.toNat / g * g ≤ target.toNat := Nat.div_mul_le_self _ _
      omega

theorem truthyLen_none : truthyLen none = 0 := rfl

theorem truthyLen_some (l : List Byte) : truthyLen (some l) = l.length := rfl

theorem seekOp_spec (g : Nat) (orc : Nat → Nat) (s s5 : FLState) (off : Int)
    (w : Nat) (hinv : tellFn s = s.lpos) (hw2 : w ≠ 2)
    (h : seekOp g orc s off w = Except.ok s5) :
    tellFn s5 = s5.lpos ∧
    s5.lpos = (if w = 0 then off else s.lpos + off) ∧
    s5.rbuf = none ∧ s5.wbuf = none ∧ s5.closed = s.closed ∧
    s5.iclosed = s.iclosed := by
  unfold seekOp at h
  cases hf : flushOp orc s with
  | error e => rw [hf] at h; cases h
  | ok s1 =>
    rw [hf] at h
    dsimp only at h
    obtain ⟨hp, hrb, hwb, hsb, hcl, hicl, hlp, hncl⟩ := flushOp_spec orc s s1 hf
    unfold tellFn at hinv
    by_cases hshort : (if w = 1 then off - (truthyLen s1.rbuf : Int) +
        (truthyLen s1.sbuf : Int) else off) = 0 ∧ w = 1
    · rw [if_pos hshort] at h
      obtain ⟨hz, hw1⟩ := hshort
      subst hw1
      rw [if_pos rfl] at hz
      simp only [Except.ok.injEq] at h
      subst h
      rw [hrb] at hz
      refine ⟨?_, ?_, rfl, hwb, hcl, hicl⟩
      · unfold tellFn
        dsimp only
        rw [hwb, truthyLen_none]
        omega
      · dsimp only
        rw [if_neg (by omega : ¬(1 = 0))]
    · rw [if_neg hshort] at h
      by_cases hw0 : w = 0
      · subst hw0
        rw [if_pos rfl] at h
        cases hps : pseek g { s1 with rbuf := none, sbuf := none } off with
        | none => rw [hps] at h; cases h
        | some pr =>
          obtain ⟨shadow, s4⟩ := pr
          rw [hps] at h
          simp only [Except.ok.injEq] at h
          subst h
          obtain ⟨hpos4, hdat4, hrb4, hwb4, hsb4, hcl4, hicl4, hlp4⟩ :=
            pseek_spec g _ off shadow s4 hps
          simp only at hrb4 hwb4 hcl4 hicl4
          rw [hwb] at hwb4
          refine ⟨?_, ?_, hrb4, hwb4, by rw [hcl4, hcl], by rw [hicl4, hicl]⟩
          · unfold tellFn
            dsimp only
            rw [hrb4, hwb4, truthyLen_none, truthyLen_some]
            omega
          · dsimp only
            rw [if_pos rfl]
      · have hw1 : w = 1 := by
          by_contra hwn
          rw [if_neg hw0, if_neg hwn, if_neg hw2] at h
          cases h
        subst hw1
        rw [if_neg hw0, if_pos rfl] at h
        cases hps : pseek g { s1 with rbuf := none, sbuf := none }
            (tellFn { s1 with rbuf := none, sbuf := none }
              + (off - (truthyLen s1.rbuf : Int) + (truthyLen s1.sbuf : Int))) with
        | none => rw [hps] at h; cases h
        | some pr =>
          obtain ⟨shadow, s4⟩ := pr
          rw [hps] at h
          simp only [Except.ok.injEq] at h
          subst h
          obtain ⟨hpos4, hdat4, hrb4, hwb4, hsb4, hcl4, hicl4, hlp4⟩ :=
            pseek_spec g _ _ shadow s4 hps
          simp only at hrb4 hwb4 hcl4 hicl4
          rw [hwb] at hwb4
          refine ⟨?_, ?_, hrb4, hwb4, by rw [hcl4, hcl], by rw [hicl4, hicl]⟩
          · unfold tellFn
            dsimp only
            rw [hrb4, hwb4, truthyLen_none, truthyLen_some]
            unfold tellFn at hpos4
            dsimp only at hpos4
            rw [hrb, hwb, truthyLen_none] at hpos4
            omega
          · dsimp only
            rw [if_neg (by omega : ¬(1 = 0))]

theorem pread_none (orc : Nat → Nat) (s s2 : FLState)
    (h : pread orc s = (none, s2)) : s2 = { s with cnt := s.cnt + 1 } := by
  unfold pread at h
  by_cases ha : s.inner.data.length - s.inner.pos = 0
  · rw [if_pos ha] at h
    exact ((Prod.mk.injEq _ _ _ _).mp h |>.2).symm
  · rw [if_neg ha] at h
    simp only [Prod.mk.injEq] at h
    exact absurd h.1 (by simp)

theorem pread_some (orc : Nat → Nat) (s s2 : FLState) (c : List Byte)
    (h : pread orc s = (some c, s2)) :
    s2.inner.data = s.inner.data ∧ s2.inner.pos = s.inner.pos + c.length ∧
    s2.rbuf = s.rbuf ∧ s2.wbuf = s.wbuf ∧ s2.sbuf = s.sbuf ∧
    s2.closed = s.closed ∧ s2.iclosed = s.iclosed ∧ s2.lpos = s.lpos := by
  unfold pread at h
  by_cases ha : s.inner.data.length - s.inner.pos = 0
  · rw [if_pos ha] at h
    simp only [Prod.mk.injEq] at h
    exact absurd h.1 (by simp)
  · rw [if_neg ha] at h
    simp only [Prod.mk.injEq, Option.some.injEq] at h
    obtain ⟨hc, hs⟩ := h
    subst hc
    subst hs
    refine ⟨rfl, ?_, rfl, rfl, rfl, rfl, rfl, rfl⟩
    simp only [List.length_take, List.length_drop]
    omega

theorem readToEof_spec (orc : Nat → Nat) (fuel : Nat) :
    ∀ s : FLState,
      ((readToEof orc fuel s).2).inner.data = s.inner.data ∧
      ((readToEof orc fuel s).2).inner.pos =
        s.inner.pos + ((readToEof orc fuel s).1).length ∧
      ((readToEof orc fuel s).2).rbuf = s.rbuf ∧
      ((readToEof orc fuel s).2).wbuf = s.wbuf ∧
      ((readToEof orc fuel s).2).sbuf = s.sbuf ∧
      ((readToEof orc fuel s).2).closed = s.closed ∧
      ((readToEof orc fuel s).2).iclosed = s.iclosed ∧
      ((readToEof orc fuel s).2).lpos = s.lpos := by
  induction fuel with
  | zero =>
    intro s
    simp [readToEof]
  | succ n ih =>
    intro s
    unfold readToEof
    cases hp : pread orc s with
    | mk o s2 =>
      cases o with
      | none =>
        have h2 := pread_none orc s s2 hp
        subst h2
        simp
      | some c =>
        obtain ⟨h1, h2, h3, h4, h5, h6, h7, h8⟩ := pread_some orc s s2 c hp
        obtain ⟨i1, i2, i3, i4, i5, i6, i7, i8⟩ := ih s2
        dsimp only
        refine ⟨?_, ?_, ?_, ?_, ?_, ?_, ?_, ?_⟩
        · rw [i1, h1]
        · rw [i2, h2, List.length_append]
          omega
        · rw [i3, h3]
        · rw [i4, h4]
        · rw [i5, h5]
        · rw [i6, h6]
        · rw [i7, h7]
        · rw [i8, h8]

theorem readLoop_spec (orc : Nat → Nat) (fuel : Nat) :
    ∀ (s : FLState) (size sofar : Nat),
      ((readLoop orc fuel s size sofar).2).inner.data = s.inner.data ∧
      ((readLoop orc fuel s size sofar).2).inner.pos =
        s.inner.pos + ((readLoop orc fuel s size sofar).1).length ∧
      ((readLoop orc fuel s size sofar).2).rbuf = s.rbuf ∧
      ((readLoop orc fuel s size sofar).2).wbuf = s.wbuf ∧
      ((readLoop orc fuel s size sofar).2).sbuf = s.sbuf ∧
      ((readLoop orc fuel s size sofar).2).closed = s.closed ∧
      ((readLoop orc fuel s size sofar).2).iclosed = s.iclosed ∧
      ((readLoop orc fuel s size sofar).2).lpos = s.lpos := by
  induction fuel with
  | zero =>
    intro s size sofar
    simp [readLoop]
  | succ n ih =>
    intro s size sofar
    unfold readLoop
    by_cases hlt : sofar < size
    · rw [if_pos hlt]
      cases hp : pread orc s with
      | mk o s2 =>
        cases o with
        | none =>
          have h2 := pread_none orc s s2 hp
          subst h2
          simp
        | some c =>
          obtain ⟨h1, h2, h3, h4, h5, h6, h7, h8⟩ := pread_some orc s s2 c hp
          obtain ⟨i1, i2, i3, i4, i5, i6, i7, i8⟩ := ih s2 size (sofar + c.length)
          dsimp only
          refine ⟨?_, ?_, ?_, ?_, ?_, ?_, ?_, ?_⟩
          · rw [i1, h1]
          · rw [i2, h2, List.length_append]
            omega
          · rw [i3, h3]
          · rw [i4, h4]
          · rw [i5, h5]
          · rw [i6, h6]
          · rw [i7, h7]
          · rw [i8, h8]
    · rw [if_neg hlt]
      simp

theorem stripShadow_spec (out : List Byte) (s : FLState) (r : List Byte)
    (s2 : FLState) (h : stripShadow out s = Except.ok (r, s2)) :
    (r.length : Int) = (out.length : Int) - truthyLen s.sbuf ∧
    truthyLen s.sbuf ≤ out.length ∧
    truthyLen s2.sbuf = 0 ∧ s2.inner = s.inner ∧ s2.rbuf = s.rbuf ∧
    s2.wbuf = s.wbuf ∧ s2.closed = s.closed ∧ s2.iclosed = s.iclosed ∧
    s2.lpos = s.lpos + r.length := by
  unfold stripShadow at h
  cases hsb : s.sbuf with
  | none =>
    rw [hsb] at h
    dsimp only at h
    simp only [Except.ok.injEq, Prod.mk.injEq] at h
    obtain ⟨hr, hs⟩ := h
    subst hr
    subst hs
    simp [truthyLen, hsb]
  | some sb =>
    rw [hsb] at h
    dsimp only at h
    by_cases he : sb = []
    · subst he
      rw [if_pos rfl] at h
      simp only [Except.ok.injEq, Prod.mk.injEq] at h
      obtain ⟨hr, hs⟩ := h
      subst hr
      subst hs
      simp [truthyLen, hsb]
    · rw [if_neg he] at h
      by_cases hpre : sb.isPrefixOf out
      · rw [if_pos hpre] at h
        simp only [Except.ok.injEq, Prod.mk.injEq] at h
        obtain ⟨hr, hs⟩ := h
        subst hr
        subst hs
        have hle : sb.length ≤ out.length :=
          (List.isPrefixOf_iff_prefix.mp hpre).length_le
        refine ⟨?_, ?_, ?_, rfl, rfl, rfl, rfl, rfl, ?_⟩
        · simp only [List.length_drop, truthyLen, hsb, Option.getD]
          omega
        · simpa [truthyLen, hsb] using hle
        · simp [truthyLen]
        · simp only [List.length_drop]
      · rw [if_neg hpre] at h
        cases h

theorem pwrite_nonflush (orc : Nat → Nat) (s : FLState) (d : List Byte) :
    ((pwrite orc s d false).2).inner.pos =
      s.inner.pos + min (orc s.cnt) d.length ∧
    (((pwrite orc s d false).1).getD []).length =
      d.length - min (orc s.cnt) d.length ∧
    ((pwrite orc s d false).2).rbuf = s.rbuf ∧
    ((pwrite orc s d false).2).wbuf = s.wbuf ∧
    ((pwrite orc s d false).2).sbuf = s.sbuf ∧
    ((pwrite orc s d false).2).closed = s.closed ∧
    ((pwrite orc s d false).2).iclosed = s.iclosed ∧
    ((pwrite orc s d false).2).lpos = s.lpos := by
  refine ⟨?_, ?_, rfl, rfl, rfl, rfl, rfl, rfl⟩
  · unfold pwrite
    simp only [Bool.false_eq_true, if_false]
    dsimp only [MemFile.write]
    simp only [List.length_take]
    omega
  · unfold pwrite
    simp only [Bool.false_eq_true, if_false]
    by_cases hd : d.drop (min (orc s.cnt) d.length) = []
    · rw [if_pos hd]
      have := congrArg List.length hd
      simp only [List.length_drop, List.length_nil] at this
      simp [this]
    · rw [if_neg hd]
      simp [List.length_drop]

theorem readBody_pres (orc : Nat → Nat) (s1 : FLState) (n : Int)
    (r0 : List Byte) (s2 : FLState) (hinv : tellFn s1 = s1.lpos)
    (hwb : s1.wbuf = none) (h : readBody orc s1 n = Except.ok (r0, s2)) :
    tellFn s2 = s2.lpos ∧ s2.closed = s1.closed ∧ s2.iclosed = s1.iclosed := by
  have hw0 : truthyLen s1.wbuf = 0 := by rw [hwb]; rfl
  have hb2 : (s1.rbuf.getD []).length = truthyLen s1.rbuf := rfl
  unfold readBody at h
  by_cases hn : n ≤ 0
  · rw [if_pos hn] at h
    obtain ⟨e1, e2, e3, e4, e5, e6, e7, e8⟩ :=
      readToEof_spec orc (s1.inner.data.length - s1.inner.pos + 1)
        { s1 with rbuf := some [] }
    simp only at e1 e2 e3 e4 e5 e6 e7 e8
    obtain ⟨t1, t2, t3, t4, t5, t6, t7, t8, t9⟩ := stripShadow_spec _ _ _ _ h
    refine ⟨?_, by rw [t7, e6], by rw [t8, e7]⟩
    unfold tellFn
    rw [t3, t4, e2, t5, e3, t6, e4, hw0, t9, e8]
    rw [e5, List.length_append] at t1
    unfold tellFn at hinv
    rw [hw0] at hinv
    simp only [truthyLen_some, List.length_nil]
    omega
  · rw [if_neg hn] at h
    obtain ⟨l1, l2, l3, l4, l5, l6, l7, l8⟩ :=
      readLoop_spec orc (s1.inner.data.length - s1.inner.pos + 1) s1
        (n.toNat + truthyLen s1.sbuf) ((s1.rbuf.getD []).length)
    by_cases hsz : n.toNat + truthyLen s1.sbuf <
        (s1.rbuf.getD [] ++
          (readLoop orc (s1.inner.data.length - s1.inner.pos + 1) s1
            (n.toNat + truthyLen s1.sbuf) ((s1.rbuf.getD []).length)).1).length
    · rw [if_pos hsz] at h
      obtain ⟨t1, t2, t3, t4, t5, t6, t7, t8, t9⟩ := stripShadow_spec _ _ _ _ h
      simp only at t1 t2 t4 t5 t6 t7 t8 t9
      refine ⟨?_, by rw [t7, l6], by rw [t8, l7]⟩
      unfold tellFn
      rw [t3, t4, l2, t5, t6, l4, hw0, t9, l8]
      rw [l5, List.length_take, List.length_append] at t1
      rw [List.length_append] at hsz
      unfold tellFn at hinv
      rw [hw0] at hinv
      simp only [truthyLen_some, List.length_drop, List.length_append]
      omega
    · rw [if_neg hsz] at h
      obtain ⟨t1, t2, t3, t4, t5, t6, t7, t8, t9⟩ := stripShadow_spec _ _ _ _ h
      simp only at t1 t2 t4 t5 t6 t7 t8 t9
      refine ⟨?_, by rw [t7, l6], by rw [t8, l7]⟩
      unfold tellFn
      rw [t3, t4, l2, t5, t6, l4, hw0, t9, l8]
      rw [l5, List.length_append] at t1
      unfold tellFn at hinv
      rw [hw0] at hinv
      simp only [truthyLen_some, List.length_nil]
      omega

theorem readBody_negOne_bufs (orc : Nat → Nat) (s1 : FLState) (r0 : List Byte)
    (s2 : FLState) (hsb : s1.sbuf = none)
    (h : readBody orc s1 (-1) = Except.ok (r0, s2)) :
    s2.rbuf = some [] ∧ s2.wbuf = s1.wbuf ∧ s2.sbuf = none ∧
    s2.closed = s1.closed ∧ s2.iclosed = s1.iclosed := by
  unfold readBody at h
  rw [if_pos (by decide : (-1 : Int) ≤ 0)] at h
  dsimp only at h
  obtain ⟨e1, e2, e3, e4, e5, e6, e7, e8⟩ :=
    readToEof_spec orc (s1.inner.data.length - s1.inner.pos + 1)
      { s1 with rbuf := some [] }
  simp only at e3 e4 e5 e6 e7
  unfold stripShadow at h
  rw [e5.trans hsb] at h
  dsimp only at h
  simp only [Except.ok.injEq, Prod.mk.injEq] at h
  obtain ⟨h1, h2⟩ := h
  subst h2
  exact ⟨e3, e4, rfl, e6, e7⟩

theorem seekOp_inv (g : Nat) (orc : Nat → Nat) (s s5 : FLState) (off : Int)
    (w : Nat) (hinv : tellFn s = s.lpos)
    (h : seekOp g orc s off w = Except.ok s5) :
    tellFn s5 = s5.lpos ∧ s5.closed = s.closed ∧ s5.iclosed = s.iclosed := by
  by_cases hw2 : w = 2
  · subst hw2
    unfold seekOp at h
    cases hf : flushOp orc s with
    | error e => rw [hf] at h; cases h
    | ok s1 =>
      rw [hf] at h
      dsimp only at h
      obtain ⟨hp, hrb, hwb, hsb, hcl, hicl, hlp, hncl⟩ := flushOp_spec orc s s1 hf
      rw [if_neg (fun hc => absurd hc.2 (by decide)), if_neg (by decide),
        if_neg (by decide), if_pos rfl] at h
      cases hdr : readBody orc { s1 with rbuf := none, sbuf := none } (-1) with
      | error e2 => rw [hdr] at h; cases h
      | ok p =>
        obtain ⟨r0, p2⟩ := p
        rw [hdr] at h
        dsimp only at h
        cases hps : pseek g p2 (tellFn p2 + off) with
        | none => rw [hps] at h; cases h
        | some pr =>
          obtain ⟨shadow, s4⟩ := pr
          rw [hps] at h
          dsimp only at h
          simp only [Except.ok.injEq] at h
          subst h
          obtain ⟨q1, q2, q3, q4, q5⟩ :=
            readBody_negOne_bufs orc { s1 with rbuf := none, sbuf := none }
              r0 p2 rfl hdr
          simp only at q2 q4 q5
          obtain ⟨ppos, pdat, prb, pwb, psb, pcl, picl, plp⟩ :=
            pseek_spec g p2 (tellFn p2 + off) shadow s4 hps
          refine ⟨?_, ?_, ?_⟩
          · unfold tellFn at ppos ⊢
            dsimp only
            rw [prb, pwb]
            rw [q1, q2, q3] at ppos ⊢
            rw [hwb] at ppos ⊢
            rw [truthyLen_none, truthyLen_some, truthyLen_some, List.length_nil]
            rw [truthyLen_none, truthyLen_some, List.length_nil] at ppos
            omega
          · dsimp only
            rw [pcl, q4, hcl]
          · dsimp only
            rw [picl, q5, hicl]
  · obtain ⟨j1, j2, j3, j4, j5, j6⟩ := seekOp_spec g orc s s5 off w hinv hw2 h
    exact ⟨j1, j5, j6⟩

theorem readOp_pres (g : Nat) (orc : Nat → Nat) (s : FLState) (n : Int)
    (r0 : List Byte) (s2 : FLState) (hinv : tellFn s = s.lpos)
    (h : readOp g orc s n = Except.ok (r0, s2)) :
    tellFn s2 = s2.lpos ∧ s2.closed = s.closed ∧ s2.iclosed = s.iclosed := by
  unfold readOp at h
  by_cases hc : s.closed
  · rw [if_pos hc] at h
    cases h
  · rw [if_neg hc] at h
    by_cases hw : s.wbuf ≠ none
    · rw [if_pos hw] at h
      cases hsk : seekOp g orc s 0 1 with
      | error e => rw [hsk] at h; cases h
      | ok s1 =>
        rw [hsk] at h
        dsimp only at h
        obtain ⟨j1, j2, j3, j4, j5, j6⟩ := seekOp_spec g orc s s1 0 1 hinv (by decide) hsk
        obtain ⟨k1, k2, k3⟩ := readBody_pres orc s1 n r0 s2 j1 j4 h
        exact ⟨k1, by rw [k2, j5], by rw [k3, j6]⟩
    · rw [if_neg hw] at h
      dsimp only at h
      push_neg at hw
      exact readBody_pres orc s n r0 s2 hinv hw h

theorem writeBody_pres (orc : Nat → Nat) (s1 : FLState) (d : List Byte)
    (s2 : FLState) (hinv : tellFn s1 = s1.lpos) (hrb : s1.rbuf = none)
    (h : writeBody orc s1 d = Except.ok s2) :
    tellFn s2 = s2.lpos ∧ s2.closed = s1.closed ∧ s2.iclosed = s1.iclosed := by
  have hr0 : truthyLen s1.rbuf = 0 := by rw [hrb]; rfl
  have hwbr : (s1.wbuf.getD []).length = truthyLen s1.wbuf := rfl
  unfold writeBody at h
  unfold tellFn at hinv ⊢
  cases hsb : s1.sbuf with
  | none =>
    rw [hsb] at h
    dsimp only at h
    obtain ⟨w1, w2, w3, w4, w5, w6, w7, w8⟩ :=
      pwrite_nonflush orc s1 (s1.wbuf.getD [] ++ d)
    simp only [Except.ok.injEq] at h
    subst h
    have hs0 : truthyLen s1.sbuf = 0 := by rw [hsb]; rfl
    refine ⟨?_, by rw [w6], by rw [w7]⟩
    dsimp only
    rw [w1, w3, hrb, w5, hsb, truthyLen_none, truthyLen_some]
    rw [List.length_append] at w1 w2 ⊢
    rw [hsb, truthyLen_none] at hinv
    rw [hr0] at hinv
    rw [w2]
    omega
  | some l =>
    rw [hsb] at h
    dsimp only at h
    by_cases hl : l = []
    · subst hl
      rw [if_pos rfl] at h
      obtain ⟨w1, w2, w3, w4, w5, w6, w7, w8⟩ :=
        pwrite_nonflush orc s1 (s1.wbuf.getD [] ++ d)
      simp only [Except.ok.injEq] at h
      subst h
      refine ⟨?_, by rw [w6], by rw [w7]⟩
      dsimp only
      rw [w1, w3, hrb, w5, hsb, truthyLen_none, truthyLen_some]
      rw [List.length_append] at w1 w2 ⊢
      rw [hsb, truthyLen_some, List.length_nil] at hinv
      rw [hr0] at hinv
      rw [w2]
      have ht0 : truthyLen (some ([] : List Byte)) = 0 := rfl
      omega
    · rw [if_neg hl] at h
      dsimp only at h
      obtain ⟨w1, w2, w3, w4, w5, w6, w7, w8⟩ :=
        pwrite_nonflush orc { s1 with sbuf := none } (s1.wbuf.getD [] ++ (l ++ d))
      simp only at w1 w2 w3 w4 w5 w6 w7 w8
      simp only [Except.ok.injEq] at h
      subst h
      refine ⟨?_, by rw [w6], by rw [w7]⟩
      dsimp only
      rw [List.length_append, List.length_append] at w1 w2
      rw [w1, w3, w5, truthyLen_none, truthyLen_some, w2]
      rw [hsb, truthyLen_some] at hinv
      omega

theorem writeOp_pres (g : Nat) (orc : Nat → Nat) (s : FLState) (d : List Byte)
    (s2 : FLState) (hinv : tellFn s = s.lpos)
    (h : writeOp g orc s d = Except.ok s2) :
    tellFn s2 = s2.lpos ∧ s2.closed = s.closed ∧ s2.iclosed = s.iclosed := by
  unfold writeOp at h
  by_cases hc : s.closed
  · rw [if_pos hc] at h
    cases h
  · rw [if_neg hc] at h
    by_cases hr : s.rbuf ≠ none
    · rw [if_pos hr] at h
      cases hsk : seekOp g orc s 0 1 with
      | error e => rw [hsk] at h; cases h
      | ok s1 =>
        rw [hsk] at h
        dsimp only at h
        obtain ⟨j1, j2, j3, j4, j5, j6⟩ := seekOp_spec g orc s s1 0 1 hinv (by decide) hsk
        obtain ⟨k1, k2, k3⟩ := writeBody_pres orc s1 d s2 j1 j3 h
        exact ⟨k1, by rw [k2, j5], by rw [k3, j6]⟩
    · rw [if_neg hr] at h
      dsimp only at h
      push_neg at hr
      exact writeBody_pres orc s d s2 hinv hr h

theorem closeOp_pres (orc : Nat → Nat) (s s1 : FLState) (hinv : tellFn s = s.lpos)
    (h : closeOp orc s = Except.ok s1) :
    tellFn s1 = s1.lpos ∧ s1.iclosed = s.iclosed ∧ s1.closed = true := by
  unfold closeOp at h
  by_cases hc : s.closed
  · rw [if_pos hc] at h
    simp only [Except.ok.injEq] at h
    subst h
    exact ⟨hinv, rfl, hc⟩
  · rw [if_neg hc] at h
    cases hf : flushOp orc s with
    | error e => rw [hf] at h; cases h
    | ok s0 =>
      rw [hf] at h
      dsimp only at h
      simp only [Except.ok.injEq] at h
      subst h
      obtain ⟨f1, f2, f3, f4, f5, f6, f7, f8⟩ := flushOp_spec orc s s0 hf
      refine ⟨?_, by rw [f6], rfl⟩
      unfold tellFn at hinv ⊢
      dsimp only
      rw [f1, f2, f3, f4, f7, truthyLen_none]
      omega

theorem closeW_pres (orc : Nat → Nat) (s s1 : FLState) (hinv : tellFn s = s.lpos)
    (h : closeW orc s = Except.ok s1) :
    tellFn s1 = s1.lpos ∧ s1.closed = true ∧ s1.iclosed = true := by
  unfold closeW at h
  cases hco : closeOp orc s with
  | error e => rw [hco] at h; cases h
  | ok s0 =>
    rw [hco] at h
    dsimp only at h
    simp only [Except.ok.injEq] at h
    subst h
    obtain ⟨c1, c2, c3⟩ := closeOp_pres orc s s0 hinv hco
    exact ⟨c1, c3, rfl⟩

theorem closeOp_closed (orc : Nat → Nat) (s s1 : FLState)
    (h : closeOp orc s = Except.ok s1) : s1.closed = true := by
  unfold closeOp at h
  by_cases hc : s.closed
  · rw [if_pos hc] at h
    simp only [Except.ok.injEq] at h
    subst h
    exact hc
  · rw [if_neg hc] at h
    cases hf : flushOp orc s with
    | error e => rw [hf] at h; cases h
    | ok s0 =>
      rw [hf] at h
      dsimp only at h
      simp only [Except.ok.injEq] at h
      subst h
      rfl

theorem closeW_closed (orc : Nat → Nat) (s s1 : FLState)
    (h : closeW orc s = Except.ok s1) : s1.closed = true := by
  unfold closeW at h
  cases hco : closeOp orc s with
  | error e => rw [hco] at h; cases h
  | ok s0 =>
    rw [hco] at h
    dsimp only at h
    simp only [Except.ok.injEq] at h
    subst h
    exact closeOp_closed orc s s0 hco

theorem closeW_iclosed (orc : Nat → Nat) (s s1 : FLState)
    (h : closeW orc s = Except.ok s1) : s1.iclosed = true := by
  unfold closeW at h
  cases hco : closeOp orc s with
  | error e => rw [hco] at h; cases h
  | ok s0 =>
    rw [hco] at h
    dsimp only at h
    simp only [Except.ok.injEq] at h
    subst h
    rfl

theorem step_pres (g : Nat) (orc : Nat → Nat) (s : FLState) (op : Op)
    (s2 : FLState) (hinv : tellFn s = s.lpos)
    (h : step g orc s op = Except.ok s2) : tellFn s2 = s2.lpos := by
  cases op with
  | rd n =>
    unfold step at h
    dsimp only at h
    cases hro : readOp g orc s n with
    | error e => rw [hro] at h; cases h
    | ok p =>
      obtain ⟨r0, s5⟩ := p
      rw [hro] at h
      dsimp only at h
      simp only [Except.ok.injEq] at h
      subst h
      exact (readOp_pres g orc s n r0 s5 hinv hro).1
  | wr d =>
    unfold step at h
    dsimp only at h
    exact (writeOp_pres g orc s d s2 hinv h).1
  | sk off w =>
    unfold step at h
    dsimp only at h
    exact (seekOp_inv g orc s s2 off w hinv h).1
  | fl =>
    unfold step at h
    dsimp only at h
    obtain ⟨f1, f2, f3, f4, f5, f6, f7, f8⟩ := flushOp_spec orc s s2 h
    unfold tellFn at hinv ⊢
    rw [f1, f2, f3, f4, f7, truthyLen_none]
    omega
  | cl =>
    unfold step at h
    dsimp only at h
    exact (closeW_pres orc s s2 hinv h).1

theorem step_closed (g : Nat) (orc : Nat → Nat) (s : FLState) (op : Op)
    (s2 : FLState) (hc : s.closed = true) (h : step g orc s op = Except.ok s2) :
    s2.closed = true := by
  have hfe : flushOp orc s = Except.error Err.closedErr := by
    unfold flushOp
    rw [if_pos hc]
  cases op with
  | rd n =>
    unfold step at h
    dsimp only at h
    have hre : readOp g orc s n = Except.error Err.closedErr := by
      unfold readOp
      rw [if_pos hc]
    rw [hre] at h
    cases h
  | wr d =>
    unfold step at h
    dsimp only at h
    unfold writeOp at h
    rw [if_pos hc] at h
    cases h
  | sk off w =>
    unfold step at h
    dsimp only at h
    unfold seekOp at h
    rw [hfe] at h
    cases h
  | fl =>
    unfold step at h
    dsimp only at h
    rw [hfe] at h
    cases h
  | cl =>
    unfold step at h
    dsimp only at h
    exact closeW_closed orc s s2 h

theorem runOps_pres (g : Nat) (orc : Nat → Nat) (ops : List Op) :
    ∀ s s2 : FLState, tellFn s = s.lpos →
      runOps g orc s ops = Except.ok s2 → tellFn s2 = s2.lpos := by
  induction ops with
  | nil =>
    intro s s2 hinv h
    unfold runOps at h
    simp only [Except.ok.injEq] at h
    subst h
    exact hinv
  | cons op ops ih =>
    intro s s2 hinv h
    unfold runOps at h
    cases hs : step g orc s op with
    | error e => rw [hs] at h; cases h
    | ok s1 =>
      rw [hs] at h
      dsimp only at h
      exact ih s1 s2 (step_pres g orc s op s1 hinv hs) h

theorem runOps_closed (g : Nat) (orc : Nat → Nat) (ops : List Op) :
    ∀ s s2 : FLState, s.closed = true →
      runOps g orc s ops = Except.ok s2 → s2.closed = true := by
  induction ops with
  | nil =>
    intro s s2 hc h
    unfold runOps at h
    simp only [Except.ok.injEq] at h
    subst h
    exact hc
  | cons op ops ih =>
    intro s s2 hc h
    unfold runOps at h
    cases hs : step g orc s op with
    | error e => rw [hs] at h; cases h
    | ok s1 =>
      rw [hs] at h
      dsimp only at h
      exact ih s1 s2 (step_closed g orc s op s1 hc hs) h

/-- C1 counterexample: FixedBlockSize(blocksize 3) over a five-byte stream,
public seek to offset 7 raises no error, yet afterwards tell() (primitive
position plus the shadow buffer length) is 6, not 7: the primitive seek
lands on boundary 6, the block read-back returns no bytes, the past-EOF
probe seeks raise nothing on a StringIO, and the seek back by the empty
read leaves the inner file at 6 with an empty shadow, so the advertised
position invariant fails after an error-free public seek past EOF. -/
theorem c1_seek_shadow_counterexample :
    fbsSeekTell 3 [97, 98, 99, 100, 101] 7 = 6 ∧ (6 : Nat) ≠ 7 := by decide

/-- C1 (amended): over primitives whose seek refuses targets outside the
stream extent and returns the full boundary gap as shadow, every error-free
sequence of public read/write/seek/flush/close operations preserves the
position invariant: tell() = primitive_tell() - len(rbuffer) + len(wbuffer)
+ len(sbuffer) equals the logical position, independent of the primitive
chunk sizes (orc) and of the seek granularity g. Public seeks cover
whence 0 (absolute), 1 (relative, with read/shadow buffer adjustment) and
2 (end-relative, emulated by draining the stream through the read
machinery and then seeking absolutely, as FileLikeBase.seek does when the
primitive seek only implements whence 0); other whence values error. -/
theorem c1_position_invariant_amended (g : Nat) (_hg : 1 ≤ g) (orc : Nat → Nat)
    (content : List Byte) (ops : List Op) (s2 : FLState)
    (h : runOps g orc (initState content) ops = Except.ok s2) :
    tellFn s2 = s2.lpos :=
  runOps_pres g orc ops (initState content) s2 rfl h

theorem c1_position_witness :
    1 ≤ 3 ∧
    runOps 3 (fun _ => 2) (initState [10, 20, 30, 40, 50, 60, 70]) c1ops =
      Except.ok c1final ∧
    tellFn c1final = c1final.lpos :=
  ⟨by decide, by decide,
   c1_position_invariant_amended 3 (by decide) (fun _ => 2)
     [10, 20, 30, 40, 50, 60, 70] c1ops c1final (by decide)⟩

/-- C7: once close() has returned, the closed flag is true and remains true
under every further successful operation, and every subsequent read or write
call fails with the closed-stream error instead of touching the primitives. -/
theorem c7_closed_monotone (g : Nat) (orc : Nat → Nat) (s0 s : FLState)
    (hcw : closeW orc s0 = Except.ok s) (n : Int) (d : List Byte)
    (ops : List Op) (s3 : FLState) :
    s.closed = true ∧
    readOp g orc s n = Except.error Err.closedErr ∧
    writeOp g orc s d = Except.error Err.closedErr ∧
    (runOps g orc s ops = Except.ok s3 → s3.closed = true) := by
  have hc := closeW_closed orc s0 s hcw
  refine ⟨hc, ?_, ?_, fun hr => runOps_closed g orc ops s s3 hc hr⟩
  · unfold readOp
    rw [if_pos hc]
  · unfold writeOp
    rw [if_pos hc]

theorem c7_closed_witness :
    c7closed.closed = true ∧
    readOp 3 (fun _ => 1) c7closed 4 = Except.error Err.closedErr ∧
    writeOp 3 (fun _ => 1) c7closed [9] = Except.error Err.closedErr ∧
    (runOps 3 (fun _ => 1) c7closed [Op.cl] = Except.ok c7closed →
      c7closed.closed = true) :=
  c7_closed_monotone 3 (fun _ => 1) (initState [1, 2]) c7closed (by decide) 4 [9]
    [Op.cl] c7closed

/-- C9: close() is idempotent: if a close call succeeded, a second close call
on the resulting state succeeds, performs no further flush or primitive
write, and returns the state completely unchanged. -/
theorem c9_close_idem (orc : Nat → Nat) (s s1 : FLState)
    (h : closeW orc s = Except.ok s1) : closeW orc s1 = Except.ok s1 := by
  have hc := closeW_closed orc s s1 h
  have hic := closeW_iclosed orc s s1 h
  obtain ⟨fin, cnt, rb, wb, sb, cl, ic, lp⟩ := s1
  simp only at hc hic
  subst hc
  subst hic
  unfold closeW closeOp
  rfl

theorem c9_close_witness : closeW (fun _ => 1) c9closed = Except.ok c9closed :=
  c9_close_idem (fun _ => 1) (initState [5, 6, 7]) c9closed (by decide)

end Filelike
